import Mathlib

/-!
Shallow embedding of the `myalloc` heap allocator (src/myalloc.c, src/myalloc.h).

Modelling choices:
* Addresses are natural numbers (C pointer arithmetic; pointer overflow is
  undefined behaviour, so addresses are not wrapped).
* `size_t` value arithmetic wraps modulo 2^64 where the C expression can wrap
  (`add64`, `sub64`, the alignment rounding); the target is 64-bit Linux, so
  `sizeof(free_block) = 32`, `sizeof(void *) = 8`, `INTPTR_MAX = 2^63 - 1`.
* Memory is modelled as a total function from addresses to `free_block`
  header records: `mem a` is the reinterpretation of the bytes at address `a`
  as a `free_block` (the C code casts arbitrary pointers to `free_block *`,
  in particular in `myfree`, so reads at non-header addresses must be
  expressible).  Header records written by the model in any scenario below
  are at least 32 bytes apart, so the independent-cells abstraction agrees
  with byte-level memory on every access the modelled runs perform.
* The free-list walks of the C code (`while` loops over `next` pointers) are
  modelled with an explicit fuel argument; theorems either supply enough fuel
  or hypothesise it.
* `sbrk` is modelled by the `brk` field of the heap state plus a boolean
  oracle deciding whether the (single, per call) extending `sbrk` succeeds.
  `internal_myalloc` additionally returns the list of deltas of the extending
  `sbrk` calls it issued, so that claims about "the OS extension call is
  never issued" are statable.
* The `pthread_mutex` wrapper `myalloc` only serialises calls; the claims are
  about the serialised semantics, which is `internal_myalloc`.
-/

/-- Wrap of 64-bit unsigned arithmetic. -/
def U64 : Nat := 2 ^ 64

/-- Wrapping 64-bit addition (size_t `+`). -/
def add64 (a b : Nat) : Nat := (a + b) % U64

/-- Wrapping 64-bit subtraction (size_t `-`), for operands below `U64`. -/
def sub64 (a b : Nat) : Nat := (a + U64 - b) % U64

/-- myalloc.h:7 `#define ALIGNMENT 32`. -/
def ALIGNMENT : Nat := 32

/-- myalloc.h:28 `ALIGNMENT_MASK = ALIGNMENT - 1`. -/
def ALIGNMENT_MASK : Nat := ALIGNMENT - 1

/-- myalloc.h:22 `FBLOCKSIZE = sizeof(free_block)`; the union is padded to 32
bytes by the `ALIGN stub` member. -/
def FBLOCKSIZE : Nat := 32

/-- myalloc.h:25 `MIN_SPLIT_REMAINDER = FBLOCKSIZE + sizeof(void *)`. -/
def MIN_SPLIT_REMAINDER : Nat := FBLOCKSIZE + 8

/-- `INTPTR_MAX` on a 64-bit platform. -/
def INTPTR_MAX : Nat := 2 ^ 63 - 1

/-- myalloc.c:152 `size = (size + ALIGNMENT_MASK) & ~ALIGNMENT_MASK;` in
64-bit `size_t` arithmetic: the addition wraps modulo `2^64`, and
`~ALIGNMENT_MASK` is the 64-bit value `2^64 - ALIGNMENT`. -/
def roundAlign (s : Nat) : Nat := Nat.land ((s + ALIGNMENT_MASK) % U64) (U64 - ALIGNMENT)

/-- myalloc.h:31 `PAYLOAD(b) = (char *)b + FBLOCKSIZE`. -/
def PAYLOAD (b : Nat) : Nat := b + FBLOCKSIZE

/-- myalloc.h:32 `HEADER(p) = (char *)p - FBLOCKSIZE`.  (Declared in the
header as the payload-to-header conversion; `myfree` does not use it.) -/
def HEADER (p : Nat) : Nat := p - FBLOCKSIZE

/-- myalloc.h:11-19 `union free_block`: the reinterpretation of 32 bytes of
memory as a block header.  `is_allocated` is the C `int` flag read as a
boolean (nonzero = allocated). -/
structure Node where
  size : Nat
  is_allocated : Bool
  prev : Option Nat
  next : Option Nat
deriving Repr, DecidableEq

/-- Memory: the header-record reinterpretation of the bytes at each address. -/
def Mem : Type := Nat → Node

/-- Write the `next` field of the header at address `a`. -/
def setNext (m : Mem) (a : Nat) (v : Option Nat) : Mem :=
  fun x => if x = a then { m a with next := v } else m x

/-- Write the `prev` field of the header at address `a`. -/
def setPrev (m : Mem) (a : Nat) (v : Option Nat) : Mem :=
  fun x => if x = a then { m a with prev := v } else m x

/-- Write the `size` field of the header at address `a`. -/
def setSize (m : Mem) (a : Nat) (v : Nat) : Mem :=
  fun x => if x = a then { m a with size := v } else m x

/-- Write the `is_allocated` field of the header at address `a`. -/
def setAlloc (m : Mem) (a : Nat) (v : Bool) : Mem :=
  fun x => if x = a then { m a with is_allocated := v } else m x

/-- Allocator state: the memory, the free-list head (myalloc.c:13) and the
current program break. -/
structure Heap where
  mem : Mem
  head : Option Nat
  brk : Nat

/-- Follow `next` links from `o`, collecting the visited addresses; `fuel`
bounds the walk (the C loops may diverge on corrupted lists). -/
def traverse (m : Mem) : Option Nat → Nat → List Nat
  | none, _ => []
  | some _, 0 => []
  | some a, fuel + 1 => a :: traverse m (m a).next fuel

/-- myalloc.c:46-49: the insertion-position scan of `insert_to_list`:
`while (curr && (char *)curr < (char *)new) { prev = curr; curr = curr->next; }`;
returns the final `(prev, curr)` pair. -/
def insertScan (m : Mem) (new : Nat) : Option Nat → Option Nat → Nat → Option Nat × Option Nat
  | prev, curr, 0 => (prev, curr)
  | prev, none, _ + 1 => (prev, none)
  | prev, some c, fuel + 1 =>
    if c < new then insertScan m new (some c) (m c).next fuel else (prev, some c)

/-- Write the `prev` field of the header at `o` when `o` is non-null (the C
pattern `if (x) x->prev = v;`). -/
def setPrevOpt (m : Mem) (o : Option Nat) (v : Option Nat) : Mem :=
  match o with
  | some x => setPrev m x v
  | none => m

/-- Write the `next` field of the header at `o` when `o` is non-null (the C
pattern `if (x) x->next = v;`). -/
def setNextOpt (m : Mem) (o : Option Nat) (v : Option Nat) : Mem :=
  match o with
  | some x => setNext m x v
  | none => m

/-- myalloc.c:100-107: the forward half of `coalesce`: absorb `next_block`
into `block` when physically adjacent.  (The reads are inlined on the entry
memory: the three writes of the branch do not change the values the later
reads observe, even on degenerate aliased inputs.) -/
def coalesce_fwd (h : Heap) (block : Nat) : Heap :=
  match (h.mem block).next with
  | some nb =>
    if block + FBLOCKSIZE + (h.mem block).size = nb then
      { mem := setPrevOpt
                 (setSize (setNext h.mem block (h.mem nb).next) block
                   (add64 (h.mem block).size (add64 (h.mem nb).size FBLOCKSIZE)))
                 ((h.mem nb).next) (some block),
        head := h.head, brk := h.brk }
    else h
  | none => h

/-- myalloc.c:109-117: the backward half of `coalesce`: absorb `block` into
`prev_block` when physically adjacent.  `next_block` and `prev_block` are
the values captured at the top of `coalesce` (myalloc.c:97-98); the final
fixup faithfully repeats the source bug: it patches `next_block->prev`
(myalloc.c:113-115) rather than the current `block->next`'s `prev`. -/
def coalesce_bwd (next_block : Option Nat) (prev_block : Option Nat) (h : Heap) (block : Nat) :
    Heap × Nat :=
  match prev_block with
  | some pb =>
    if pb + FBLOCKSIZE + (h.mem pb).size = block then
      ({ mem := setPrevOpt
                  (setSize (setNext h.mem pb (h.mem block).next) pb
                    (add64 (h.mem pb).size (add64 (h.mem block).size FBLOCKSIZE)))
                  next_block (some pb),
         head := h.head, brk := h.brk }, pb)
    else (h, block)
  | none => (h, block)

/-- myalloc.c:96-120 `coalesce`: forward merge, then backward merge, with
`next_block`/`prev_block` captured on entry; returns the updated state and
the resulting block. -/
def coalesce (h : Heap) (block : Nat) : Heap × Nat :=
  coalesce_bwd (h.mem block).next (h.mem block).prev (coalesce_fwd h block) block

/-- myalloc.c:38 `new->prev = new->next = NULL;`. -/
def nullLinks (m : Mem) (new : Nat) : Mem := setPrev (setNext m new none) new none

/-- myalloc.c:38-67: the linking part of `insert_to_list`: null the new
block's links, then link it in at the head, tail or middle position found by
the address scan. -/
def insert_link (h : Heap) (new : Nat) (fuel : Nat) : Heap :=
  match h.head with
  | none => { mem := nullLinks h.mem new, head := some new, brk := h.brk }
  | some hd =>
    match insertScan (nullLinks h.mem new) new none (some hd) fuel with
    | (none, _) =>
      { mem := setPrev (setNext (nullLinks h.mem new) new (some hd)) hd (some new),
        head := some new, brk := h.brk }
    | (some p, none) =>
      { mem := setPrev (setNext (nullLinks h.mem new) p (some new)) new (some p),
        head := h.head, brk := h.brk }
    | (some p, some c) =>
      { mem := setPrev (setNext (setNext (setPrev (nullLinks h.mem new) new (some p)) new (some c))
                 p (some new)) c (some new),
        head := h.head, brk := h.brk }

/-- myalloc.c:70 `new->is_allocated = 0;` applied to the result of
`coalesce`. -/
def mark_free (r : Heap × Nat) : Heap :=
  { mem := setAlloc r.1.mem r.2 false, head := r.1.head, brk := r.1.brk }

/-- myalloc.c:37-71 `insert_to_list`: link the block in, coalesce, and mark
the resulting block free. -/
def insert_to_list (h : Heap) (new : Nat) (fuel : Nat) : Heap :=
  mark_free (coalesce (insert_link h new fuel) new)

/-- myalloc.c:74-92 `remove_from_list`: unlink `block`, null its links and
mark it allocated.  (The `block == NULL` guard is dropped: all call sites in
the model pass a concrete address.) -/
def remove_from_list (h : Heap) (block : Nat) : Heap :=
  match h.head with
  | none => h
  | some hd =>
    if hd = block then
      { mem := setAlloc (setPrev (setNext (setPrevOpt h.mem ((h.mem block).next) none)
                 block none) block none) block true,
        head := (h.mem block).next, brk := h.brk }
    else
      { mem := setAlloc (setPrev (setNext
                 (setNextOpt (setPrevOpt h.mem ((h.mem block).next) ((h.mem block).prev))
                   ((h.mem block).prev) ((h.mem block).next))
                 block none) block none) block true,
        head := h.head, brk := h.brk }

/-- myalloc.c:125-141 `split_block`: `leftover_size = block->size - size -
FBLOCKSIZE` in wrapping `size_t` arithmetic; keep the block whole when the
leftover is below `MIN_SPLIT_REMAINDER`, otherwise shrink the block, carve a
new header at `block + (size + FBLOCKSIZE)` and insert it. -/
def split_block (h : Heap) (block : Nat) (size : Nat) (fuel : Nat) : Heap × Nat :=
  if sub64 (sub64 (h.mem block).size size) FBLOCKSIZE < MIN_SPLIT_REMAINDER then (h, block)
  else
    (insert_to_list
       { mem := setPrev (setNext
                  (setSize (setSize h.mem block size) (block + (size + FBLOCKSIZE))
                    (sub64 (sub64 (h.mem block).size size) FBLOCKSIZE))
                  (block + (size + FBLOCKSIZE)) none)
                (block + (size + FBLOCKSIZE)) none,
         head := h.head, brk := h.brk }
       (block + (size + FBLOCKSIZE)) fuel,
     block)

/-- Result of the free-list scan of `internal_myalloc` (myalloc.c:158-169):
either an exact fit (taken whole), a splittable fit, or no fit together with
the last node visited (`prev`). -/
inductive ScanResult where
  | exactFit (a : Nat)
  | splitFit (a : Nat)
  | noFit (last : Option Nat)
deriving Repr, DecidableEq

/-- myalloc.c:158-169: the first-fit scan.  `curr->size < size +
MIN_SPLIT_REMAINDER` is a `size_t` comparison, so the sum wraps. -/
def allocScan (m : Mem) (size : Nat) : List Nat → Option Nat → ScanResult
  | [], prev => .noFit prev
  | c :: rest, _ =>
    if size ≤ (m c).size ∧ (m c).size < add64 size MIN_SPLIT_REMAINDER then .exactFit c
    else if size ≤ (m c).size then .splitFit c
    else allocScan m size rest (some c)

/-- myalloc.c:188-198 and 200-209 (two textually identical branches): extend
the heap by a fresh `size + FBLOCKSIZE` region and format a block there.
Returns `(payload, state, issued sbrk deltas)`. -/
def alloc_fresh (h : Heap) (sbrkOk : Bool) (size : Nat) : Option Nat × Heap × List Nat :=
  if INTPTR_MAX < add64 size FBLOCKSIZE then (none, h, [])
  else if sbrkOk then
    let region := h.brk
    let m1 := setAlloc (setSize h.mem region size) region true
    (some (PAYLOAD region), { mem := m1, head := h.head, brk := h.brk + add64 size FBLOCKSIZE },
      [add64 size FBLOCKSIZE])
  else (none, h, [add64 size FBLOCKSIZE])

/-- myalloc.c:178-186: the tail-extension path: `sbrk(size - prev->size)`
(wrapping `size_t` subtraction), then `prev->size = size`,
`remove_from_list(prev)`, return `PAYLOAD(prev)`; `NULL` and an unchanged
heap when the `sbrk` fails.  No new header is written on this path. -/
def alloc_grow (h : Heap) (sbrkOk : Bool) (size prev : Nat) : Option Nat × Heap × List Nat :=
  if sbrkOk then
    (some (PAYLOAD prev),
     remove_from_list
       { mem := setSize h.mem prev size, head := h.head,
         brk := h.brk + sub64 size (h.mem prev).size } prev,
     [sub64 size (h.mem prev).size])
  else (none, h, [sub64 size (h.mem prev).size])

/-- myalloc.c:154-213 after the rounding of line 152: the first-fit scan and
the three miss paths. -/
def internal_myalloc_rounded (fuel : Nat) (h : Heap) (sbrkOk : Bool) (size : Nat) :
    Option Nat × Heap × List Nat :=
  match allocScan h.mem size (traverse h.mem h.head fuel) none with
  | .exactFit c => (some (PAYLOAD c), remove_from_list h c, [])
  | .splitFit c =>
    (some (PAYLOAD (split_block (remove_from_list h c) c size fuel).2),
     (split_block (remove_from_list h c) c size fuel).1, [])
  | .noFit (some prev) =>
    if prev + (h.mem prev).size + FBLOCKSIZE = h.brk then alloc_grow h sbrkOk size prev
    else alloc_fresh h sbrkOk size
  | .noFit none => alloc_fresh h sbrkOk size

/-- myalloc.c:144-213 `internal_myalloc`.  `sbrkOk` tells whether the (at
most one) extending `sbrk` call succeeds; the returned list records the
deltas of the extending `sbrk` calls that were issued (empty when the OS was
never asked to extend the region). -/
def internal_myalloc (fuel : Nat) (h : Heap) (sbrkOk : Bool) (size0 : Nat) :
    Option Nat × Heap × List Nat :=
  if size0 = 0 then (none, h, [])
  else internal_myalloc_rounded fuel h sbrkOk (roundAlign size0)

/-- Outcome of `myfree`: either the process exits with the double-free
diagnostic (myalloc.c:229-233) or the heap is updated. -/
inductive FreeResult where
  | ok (h : Heap)
  | doubleFreeExit

/-- myalloc.c:223-236 `myfree`.  Faithful to the source: the block pointer is
`(free_block *)ptr` (myalloc.c:228), i.e. the header record is read at the
payload address itself, not at `HEADER ptr`. -/
def myfree (h : Heap) (ptr : Option Nat) (fuel : Nat) : FreeResult :=
  match ptr with
  | none => .ok h
  | some p =>
    if (h.mem p).is_allocated = false then .doubleFreeExit
    else .ok (insert_to_list h p fuel)

/-- Whether a `myfree` call returned (instead of terminating the process). -/
def FreeResult.isOk : FreeResult → Bool
  | .ok _ => true
  | .doubleFreeExit => false

/-- The heap after a `myfree` call, with a default for the terminated case. -/
def FreeResult.getD (r : FreeResult) (d : Heap) : Heap :=
  match r with
  | .ok h => h
  | .doubleFreeExit => d

/-! Concrete scenarios.  Each `mem…` function fixes the header
reinterpretation of every address of the byte-level memory; the values at
payload addresses model the (caller-controlled) payload contents that
`myfree` reads through its `(free_block *)ptr` cast. -/

/-- Memory of the round-trip scenario: the bytes of the first payload
(at address 32) happen to read as a header with `size = 32` and a nonzero
`is_allocated`. -/
def memC2 : Mem := fun a =>
  if a = 32 then ⟨32, true, none, none⟩ else ⟨0, false, none, none⟩

/-- Fresh heap for the round-trip scenario. -/
def stC2 : Heap := ⟨memC2, none, 0⟩

/-- First `allocate(32)` of the round-trip: block header at 0, payload 32. -/
def allocC2a : Option Nat × Heap × List Nat := internal_myalloc 100 stC2 true 32

/-- Heap after the first allocation. -/
def stC2a : Heap := allocC2a.2.1

/-- Heap after `free` of the first payload pointer. -/
def stC2b : Heap := (myfree stC2a allocC2a.1 100).getD stC2

/-- Second `allocate(32)` of the round-trip. -/
def allocC2b : Option Nat × Heap × List Nat := internal_myalloc 100 stC2b true 32

/-- Memory of the adjacency scenario: the payload bytes at 32, 96 and 160
read as headers with sizes 96, 0, 0 and nonzero `is_allocated`. -/
def memC3 : Mem := fun a =>
  if a = 32 then ⟨96, true, none, none⟩
  else if a = 96 then ⟨0, true, none, none⟩
  else if a = 160 then ⟨0, true, none, none⟩
  else ⟨0, false, none, none⟩

/-- Fresh heap for the adjacency scenario. -/
def stC3 : Heap := ⟨memC3, none, 0⟩

/-- Heap after `allocate(32)` (block at 0, payload 32). -/
def stC3a : Heap := (internal_myalloc 100 stC3 true 32).2.1

/-- Heap after the second `allocate(32)` (block at 64, payload 96). -/
def stC3b : Heap := (internal_myalloc 100 stC3a true 32).2.1

/-- Heap after the third `allocate(32)` (block at 128, payload 160). -/
def stC3c : Heap := (internal_myalloc 100 stC3b true 32).2.1

/-- Heap after `free(160)`. -/
def stC3d : Heap := (myfree stC3c (some 160) 100).getD stC3

/-- Heap after `free(96)`. -/
def stC3e : Heap := (myfree stC3d (some 96) 100).getD stC3

/-- Heap after `free(32)`. -/
def stC3f : Heap := (myfree stC3e (some 32) 100).getD stC3

/-- Empty heap with all-zero memory. -/
def stE : Heap := ⟨fun _ => ⟨0, false, none, none⟩, none, 0⟩

/-- Memory for the `myfree` header-recovery scenario: an allocated block at
32 (payload 64); the payload bytes at 64 read as a header with a nonzero
`is_allocated`. -/
def memC1 : Mem := fun a =>
  if a = 32 then ⟨32, true, none, none⟩
  else if a = 64 then ⟨0, true, none, none⟩
  else ⟨0, false, none, none⟩

/-- Heap for the `myfree` header-recovery scenario. -/
def stC1 : Heap := ⟨memC1, none, 96⟩

/-- Memory for the double-free-check scenario: a block at 0 that is tracked
as free (`is_allocated = false`), whose payload bytes at 32 read as a header
with a nonzero `is_allocated`. -/
def memC5 : Mem := fun a =>
  if a = 0 then ⟨32, false, none, none⟩
  else if a = 32 then ⟨7, true, none, none⟩
  else ⟨0, false, none, none⟩

/-- Heap for the double-free-check scenario: free list `[0]`. -/
def stC5 : Heap := ⟨memC5, some 0, 64⟩

/-- Heap for the `split_block` underflow scenario: a single block at 0 of
size 32, just removed from the (now empty) free list. -/
def stC7 : Heap := ⟨fun a => if a = 0 then ⟨32, true, none, none⟩ else ⟨0, false, none, none⟩, none, 64⟩

/-- Memory for the coalesce back-link scenario: free blocks at 32 (size 32),
160 (size 0) and 224 (size 5), and an allocated block whose header
reinterpretation at 96 has size 32. -/
def memC10 : Mem := fun a =>
  if a = 32 then ⟨32, false, none, some 160⟩
  else if a = 96 then ⟨32, true, none, none⟩
  else if a = 160 then ⟨0, false, some 32, some 224⟩
  else if a = 224 then ⟨5, false, some 160, none⟩
  else ⟨0, false, none, none⟩

/-- Heap for the coalesce back-link scenario: free list `[32, 160, 224]`. -/
def stC10 : Heap := ⟨memC10, some 32, 1000⟩

/-- Result of inserting the block at 96: 32, 96 and 160 are physically
consecutive, so `coalesce` merges all three; 224 follows in the list. -/
def stC10x : Heap := insert_to_list stC10 96 100

/-- Heap with a single free block at 0 of size 100 (first-fit witness). -/
def stW6 : Heap :=
  ⟨fun a => if a = 0 then ⟨100, false, none, none⟩ else ⟨0, false, none, none⟩, some 0, 164⟩

/-- Heap with a single free block at 0 of size 32 whose end (64) is the
current break (tail-extension witness). -/
def stW8 : Heap :=
  ⟨fun a => if a = 0 then ⟨32, false, none, none⟩ else ⟨0, false, none, none⟩, some 0, 64⟩

/-- Heap for the split witness: a block at 0 of size 104 (so a request of 32
leaves a leftover of exactly `MIN_SPLIT_REMAINDER`), and free list `[1000]`. -/
def stW7 : Heap :=
  ⟨fun a => if a = 0 then ⟨104, true, none, none⟩
    else if a = 1000 then ⟨8, false, none, none⟩
    else ⟨0, false, none, none⟩, some 1000, 200⟩

/-! Theorems. -/

/-- C1: the claim states that `myfree p` operates on the block header at
`p - FBLOCKSIZE` (the `HEADER` macro of myalloc.h:32).  The code instead
casts `p` itself to `free_block *` (myalloc.c:228): on the concrete heap
`stC1` (allocated block at `HEADER 64 = 32`, payload at 64, whose bytes
read as a header with nonzero `is_allocated`), `myfree 64` returns normally
and the block it inserts into the free list starts at 64, not at
`HEADER 64 = 32`. -/
theorem C1_myfree_wrong_header :
    (myfree stC1 (some 64) 100).isOk = true ∧
    traverse ((myfree stC1 (some 64) 100).getD stC1).mem
      ((myfree stC1 (some 64) 100).getD stC1).head 10 = [64] ∧
    HEADER 64 = 32 ∧ (64 : Nat) ≠ HEADER 64 := by
  decide

/-- C5: the claim states that `myfree` terminates the process exactly when
the block of the freed pointer has `is_allocated = false`.  On `stC5` the
block of pointer 32 (header at `HEADER 32 = 0`) is tracked as free, yet
`myfree 32` does not take the double-free exit, because myalloc.c:229 reads
the flag at the payload address 32 instead of at the header address 0. -/
theorem C5_doublefree_check_reads_wrong_flag :
    (stC5.mem (HEADER 32)).is_allocated = false ∧
    (myfree stC5 (some 32) 100).isOk = true := by
  decide

/-- C2: the claim states that `allocate(n); free(p); allocate(n)` from an
empty free list returns a payload whose header is at the same address as the
first allocation's header.  In the concrete run from `stC2`: the first
`allocate(32)` returns the payload of the block with header 0; `free`
(because of the missing `HEADER` conversion, myalloc.c:228) inserts a block
starting at the payload address 32; the second `allocate(32)` then returns
`PAYLOAD 32 = 64`, a payload whose block header is at 32 ≠ 0. -/
theorem C2_roundtrip_header_moves :
    allocC2a.1 = some (PAYLOAD 0) ∧
    (myfree stC2a allocC2a.1 100).isOk = true ∧
    allocC2b.1 = some (PAYLOAD 32) ∧
    (32 : Nat) ≠ 0 := by
  decide

/-- C3: the claim states that after every call of every `allocate`/`free`
sequence the free list contains no two physically adjacent blocks.  The
concrete sequence `allocate(32)` three times (payloads 32, 96, 160), then
`free(160)`, `free(96)`, `free(32)` — with the payload bytes reading as the
headers fixed by `memC3` — ends with free list `[32, 96, 160]` in which the
blocks at 32 (size 96) and 160 are physically adjacent
(`32 + FBLOCKSIZE + 96 = 160`) yet unmerged. -/
theorem C3_adjacent_free_blocks_reachable :
    (internal_myalloc 100 stC3 true 32).1 = some (PAYLOAD 0) ∧
    (internal_myalloc 100 stC3a true 32).1 = some (PAYLOAD 64) ∧
    (internal_myalloc 100 stC3b true 32).1 = some (PAYLOAD 128) ∧
    (myfree stC3c (some 160) 100).isOk = true ∧
    (myfree stC3d (some 96) 100).isOk = true ∧
    (myfree stC3e (some 32) 100).isOk = true ∧
    traverse stC3f.mem stC3f.head 10 = [32, 96, 160] ∧
    32 + FBLOCKSIZE + (stC3f.mem 32).size = 160 := by
  decide

/-- C4: the claim states that `allocate(SIZE_MAX)` fails via the overflow
check without the OS extension call being issued.  In fact myalloc.c:152
rounds `SIZE_MAX` in wrapping `size_t` arithmetic to 0, the guard
`size + FBLOCKSIZE > INTPTR_MAX` (myalloc.c:200) then passes, `sbrk(32)` is
issued, and the call returns a payload.  The first conjunct records the half
of the claim that does hold: `allocate(0)` fails. -/
theorem C4_sizemax_not_rejected :
    (internal_myalloc 10 stE true 0).1 = none ∧
    roundAlign (2 ^ 64 - 1) = 0 ∧
    (internal_myalloc 10 stE true (2 ^ 64 - 1)).1 = some (PAYLOAD 0) ∧
    (internal_myalloc 10 stE true (2 ^ 64 - 1)).2.2 = [FBLOCKSIZE] := by
  decide

/-- C10: the claim states that reachable free lists are back-link
consistent: `n.next.prev = n`, in particular after a double-sided coalesce.
Inserting the block at 96 into the free list `[32, 160, 224]` of `stC10`
(32, 96, 160 physically consecutive) triple-merges into the block at 32,
after which `32.next = 224` but `224.prev = 96` — myalloc.c:113-115 patches
the captured `next_block` (the absorbed 160) instead of the merged block's
current successor 224. -/
theorem C10_coalesce_breaks_backlink :
    stC10x.head = some 32 ∧
    (stC10x.mem 32).next = some 224 ∧
    (stC10x.mem 224).prev = some 96 ∧
    (stC10x.mem 224).prev ≠ some 32 := by
  decide

/-- C7 counterexample: the claim quantifies over every aligned requested
size `s ≤ b.size`.  At `b.size = s = 32` the claimed leftover
`b.size - s - header` is negative, so the claim requires the block to be
kept whole and the state unmodified; the code computes the leftover in
wrapping `size_t` arithmetic (myalloc.c:126), obtains `2^64 - 32 ≥
MIN_SPLIT_REMAINDER`, and splits: it carves a bogus block at 64 of size
`2^64 - 32` and inserts it into the (previously empty) free list. -/
theorem C7_split_underflow_cex :
    (stC7.mem 0).size = 32 ∧ stC7.head = none ∧
    (split_block stC7 0 32 10).1.head = some 64 ∧
    ((split_block stC7 0 32 10).1.mem 64).size = 2 ^ 64 - FBLOCKSIZE := by
  decide

theorem sub64_eq (a b : Nat) (hba : b ≤ a) (ha : a < U64) : sub64 a b = a - b := by
  unfold sub64
  rw [Nat.sub_add_comm hba, Nat.add_mod_right]
  exact Nat.mod_eq_of_lt (lt_of_le_of_lt (Nat.sub_le a b) ha)

theorem split_block_snd (h : Heap) (b s fuel : Nat) : (split_block h b s fuel).2 = b := by
  unfold split_block
  split <;> rfl

/-- C9: whenever an `internal_myalloc` call issues an OS extension call and
that call fails, the result is `NULL` and the heap state (free list, every
header, the break) is exactly the state before the call: no partial header
is written and no block is removed from the free list before the extension
succeeds (myalloc.c:182-183, 191-193, 203-205). -/
theorem C9_oom_state_unchanged (h : Heap) (n fuel : Nat)
    (hcall : (internal_myalloc fuel h false n).2.2 ≠ []) :
    (internal_myalloc fuel h false n).1 = none ∧ (internal_myalloc fuel h false n).2.1 = h := by
  by_cases h0 : n = 0
  · exact absurd (by simp [internal_myalloc, h0]) hcall
  · unfold internal_myalloc internal_myalloc_rounded at hcall ⊢
    rw [if_neg h0] at hcall ⊢
    rcases hsc : allocScan h.mem (roundAlign n) (traverse h.mem h.head fuel) none with c | c | po <;>
      rw [hsc] at hcall
    · exact absurd rfl hcall
    · exact absurd rfl hcall
    · rcases po with _ | prev
      · replace hcall : (alloc_fresh h false (roundAlign n)).2.2 ≠ [] := hcall
        show (alloc_fresh h false (roundAlign n)).1 = none ∧ (alloc_fresh h false (roundAlign n)).2.1 = h
        unfold alloc_fresh at hcall ⊢
        by_cases hov : INTPTR_MAX < add64 (roundAlign n) FBLOCKSIZE
        · rw [if_pos hov] at hcall
          exact absurd rfl hcall
        · rw [if_neg hov] at hcall ⊢
          exact ⟨rfl, rfl⟩
      · replace hcall :
            (if prev + (h.mem prev).size + FBLOCKSIZE = h.brk then alloc_grow h false (roundAlign n) prev
             else alloc_fresh h false (roundAlign n)).2.2 ≠ [] := hcall
        show (if prev + (h.mem prev).size + FBLOCKSIZE = h.brk then alloc_grow h false (roundAlign n) prev
              else alloc_fresh h false (roundAlign n)).1 = none ∧
             (if prev + (h.mem prev).size + FBLOCKSIZE = h.brk then alloc_grow h false (roundAlign n) prev
              else alloc_fresh h false (roundAlign n)).2.1 = h
        by_cases hb : prev + (h.mem prev).size + FBLOCKSIZE = h.brk
        · rw [if_pos hb]
          exact ⟨rfl, rfl⟩
        · rw [if_neg hb] at hcall ⊢
          unfold alloc_fresh at hcall ⊢
          by_cases hov : INTPTR_MAX < add64 (roundAlign n) FBLOCKSIZE
          · rw [if_pos hov] at hcall
            exact absurd rfl hcall
          · rw [if_neg hov] at hcall ⊢
            exact ⟨rfl, rfl⟩

theorem allocScan_cons (m : Mem) (r a : Nat) (t : List Nat) (p : Option Nat) :
    allocScan m r (a :: t) p =
      if r ≤ (m a).size ∧ (m a).size < add64 r MIN_SPLIT_REMAINDER then ScanResult.exactFit a
      else if r ≤ (m a).size then ScanResult.splitFit a
      else allocScan m r t (some a) := rfl

theorem allocScan_eq_find (m : Mem) (r : Nat) (hr : r + MIN_SPLIT_REMAINDER < U64) :
    ∀ (l : List Nat) (prev : Option Nat) (c : Nat),
      l.find? (fun a => decide (r ≤ (m a).size)) = some c →
      allocScan m r l prev =
        if (m c).size < r + MIN_SPLIT_REMAINDER then ScanResult.exactFit c
        else ScanResult.splitFit c := by
  have hadd : add64 r MIN_SPLIT_REMAINDER = r + MIN_SPLIT_REMAINDER := Nat.mod_eq_of_lt hr
  intro l
  induction l with
  | nil => intro prev c hf; simp at hf
  | cons a t ih =>
    intro prev c hf
    by_cases hge : r ≤ (m a).size
    · have hca : c = a := by
        rw [List.find?_cons_of_pos _ (by simpa using hge)] at hf
        exact (Option.some.inj hf).symm
      subst hca
      rw [allocScan_cons, hadd]
      by_cases hw : (m c).size < r + MIN_SPLIT_REMAINDER
      · rw [if_pos ⟨hge, hw⟩, if_pos hw]
      · rw [if_neg (fun hcon => hw hcon.2), if_pos hge, if_neg hw]
    · rw [List.find?_cons_of_neg _ (by simpa using hge)] at hf
      rw [allocScan_cons, hadd]
      rw [if_neg (fun hcon => hge hcon.1), if_neg hge]
      exact ih (some a) c hf

/-- C6: the free-list scan of `internal_myalloc` is first-fit with an
exact-fit short-circuit: writing `r` for the rounded request, if `c` is the
first node of the free list with `r ≤ c.size` (the `find?` hypothesis), then
when `c.size < r + MIN_SPLIT_REMAINDER` the node is removed whole and its
payload returned with no split, and otherwise the node is removed, split,
and its payload returned; nodes after `c` are never examined (the result
does not depend on them).  The overflow side condition keeps the C
comparison `curr->size < size + MIN_SPLIT_REMAINDER` free of wrap-around. -/
theorem C6_first_fit (h : Heap) (sb : Bool) (n fuel c : Nat) (hn : n ≠ 0)
    (hr : roundAlign n + MIN_SPLIT_REMAINDER < U64)
    (hfind : (traverse h.mem h.head fuel).find?
        (fun a => decide (roundAlign n ≤ (h.mem a).size)) = some c) :
    internal_myalloc fuel h sb n =
      if (h.mem c).size < roundAlign n + MIN_SPLIT_REMAINDER then
        (some (PAYLOAD c), remove_from_list h c, [])
      else
        (some (PAYLOAD c), (split_block (remove_from_list h c) c (roundAlign n) fuel).1, []) := by
  have hs := allocScan_eq_find h.mem (roundAlign n) hr (traverse h.mem h.head fuel) none c hfind
  unfold internal_myalloc internal_myalloc_rounded
  rw [if_neg hn, hs]
  by_cases hw : (h.mem c).size < roundAlign n + MIN_SPLIT_REMAINDER
  · rw [if_pos hw, if_pos hw]
  · rw [if_neg hw, if_neg hw]
    show (some (PAYLOAD (split_block (remove_from_list h c) c (roundAlign n) fuel).2),
          (split_block (remove_from_list h c) c (roundAlign n) fuel).1, []) = _
    rw [split_block_snd]

/-- C8: when the scan finds no fit and the last visited free block `prev`
ends exactly at the current break, `internal_myalloc` extends the heap by
exactly `roundAlign n - prev.size` bytes, grows `prev.size` in place,
removes `prev` from the free list and returns its payload; the resulting
state shows that no new header is written on this path (the only memory
writes are the size update and the unlink fixups of `remove_from_list`). -/
theorem C8_grow_in_place (h : Heap) (n fuel prev : Nat) (hn : n ≠ 0)
    (hscan : allocScan h.mem (roundAlign n) (traverse h.mem h.head fuel) none =
      ScanResult.noFit (some prev))
    (hend : prev + (h.mem prev).size + FBLOCKSIZE = h.brk)
    (hle : (h.mem prev).size ≤ roundAlign n) (hlt : roundAlign n < U64) :
    internal_myalloc fuel h true n =
      (some (PAYLOAD prev),
       remove_from_list
         { mem := setSize h.mem prev (roundAlign n), head := h.head,
           brk := h.brk + (roundAlign n - (h.mem prev).size) } prev,
       [roundAlign n - (h.mem prev).size]) := by
  unfold internal_myalloc internal_myalloc_rounded
  rw [if_neg hn, hscan]
  show (if prev + (h.mem prev).size + FBLOCKSIZE = h.brk then alloc_grow h true (roundAlign n) prev
        else alloc_fresh h true (roundAlign n)) = _
  rw [if_pos hend]
  unfold alloc_grow
  rw [if_pos rfl, sub64_eq _ _ hle hlt]

theorem C6_first_fit_witness :
    ((traverse stW6.mem stW6.head 5).find?
        (fun a => decide (roundAlign 32 ≤ (stW6.mem a).size)) = some 0) ∧
    internal_myalloc 5 stW6 true 32 =
      if (stW6.mem 0).size < roundAlign 32 + MIN_SPLIT_REMAINDER then
        (some (PAYLOAD 0), remove_from_list stW6 0, [])
      else
        (some (PAYLOAD 0), (split_block (remove_from_list stW6 0) 0 (roundAlign 32) 5).1, []) :=
  ⟨by decide, C6_first_fit stW6 true 32 5 0 (by decide) (by decide) (by decide)⟩

theorem C8_grow_in_place_witness :
    (allocScan stW8.mem (roundAlign 64) (traverse stW8.mem stW8.head 5) none =
      ScanResult.noFit (some 0)) ∧
    internal_myalloc 5 stW8 true 64 =
      (some (PAYLOAD 0),
       remove_from_list
         { mem := setSize stW8.mem 0 (roundAlign 64), head := stW8.head,
           brk := stW8.brk + (roundAlign 64 - (stW8.mem 0).size) } 0,
       [roundAlign 64 - (stW8.mem 0).size]) :=
  ⟨by decide, C8_grow_in_place stW8 64 5 0 (by decide) (by decide) (by decide) (by decide) (by decide)⟩

theorem C9_oom_witness :
    ((internal_myalloc 5 stW8 false 64).2.2 ≠ []) ∧
    (internal_myalloc 5 stW8 false 64).1 = none ∧
    (internal_myalloc 5 stW8 false 64).2.1 = stW8 :=
  ⟨by decide, C9_oom_state_unchanged stW8 64 5 (by decide)⟩

/-- Link-following path: `LinkPath m o l o2` holds when starting from the
pointer `o` and following `next` links visits exactly the addresses of `l`
and ends with the pointer `o2`. -/
inductive LinkPath (m : Mem) : Option Nat → List Nat → Option Nat → Prop where
  | nil (o : Option Nat) : LinkPath m o [] o
  | cons {a : Nat} {l : List Nat} {o2 : Option Nat} :
      LinkPath m (m a).next l o2 → LinkPath m (some a) (a :: l) o2

/-- Complete free list: the `next` walk from `o` visits `l` and ends at
`NULL`. -/
def FreeChain (m : Mem) (o : Option Nat) (l : List Nat) : Prop := LinkPath m o l none

theorem linkPath_congr {m m2 : Mem} {o o2 : Option Nat} {l : List Nat}
    (hm : ∀ a ∈ l, (m2 a).next = (m a).next) (hp : LinkPath m o l o2) : LinkPath m2 o l o2 := by
  induction hp with
  | nil o => exact .nil o
  | cons h ih =>
    rename_i a t o3
    refine .cons ?_
    rw [hm a (List.mem_cons_self a t)]
    exact ih (fun x hx => hm x (List.mem_cons_of_mem a hx))

theorem linkPath_append {m : Mem} {o o1 o2 : Option Nat} {l1 l2 : List Nat}
    (h1 : LinkPath m o l1 o1) (h2 : LinkPath m o1 l2 o2) : LinkPath m o (l1 ++ l2) o2 := by
  induction h1 with
  | nil o => simpa using h2
  | cons h ih => exact .cons (ih h2)

theorem linkPath_split {m : Mem} : ∀ {l1 l2 : List Nat} {o o2 : Option Nat},
    LinkPath m o (l1 ++ l2) o2 → ∃ o1, LinkPath m o l1 o1 ∧ LinkPath m o1 l2 o2 := by
  intro l1
  induction l1 with
  | nil =>
    intro l2 o o2 h
    exact ⟨o, .nil o, by simpa using h⟩
  | cons a t ih =>
    intro l2 o o2 h
    cases h with
    | cons hp =>
      obtain ⟨o1, hp1, hp2⟩ := ih hp
      exact ⟨o1, .cons hp1, hp2⟩

theorem linkPath_det {m : Mem} : ∀ {o : Option Nat} {l l2 : List Nat},
    LinkPath m o l none → LinkPath m o l2 none → l = l2 := by
  intro o l
  induction l generalizing o with
  | nil =>
    intro l2 h h2
    cases h
    cases h2 with
    | nil => rfl
  | cons a t ih =>
    intro l2 h h2
    cases h with
    | cons hp =>
      cases h2 with
      | cons hp2 => rw [ih hp hp2]

theorem linkPath_suffix {m : Mem} {o : Option Nat} {l1 l2 : List Nat} {a : Nat}
    (h : LinkPath m o (l1 ++ a :: l2) none) : LinkPath m (some a) (a :: l2) none := by
  obtain ⟨o1, _, h2⟩ := linkPath_split h
  cases h2 with
  | cons hp => exact .cons hp

theorem linkPath_nodup {m : Mem} : ∀ {o : Option Nat} {l : List Nat},
    LinkPath m o l none → l.Nodup := by
  intro o l
  induction l generalizing o with
  | nil => intro _; exact List.nodup_nil
  | cons a t ih =>
    intro h
    cases h with
    | cons hp =>
      refine List.Nodup.cons ?_ (ih hp)
      intro hmem
      obtain ⟨l1, l2, hteq⟩ := List.append_of_mem hmem
      subst hteq
      have h1 : LinkPath m (some a) (a :: (l1 ++ a :: l2)) none := .cons hp
      have h2 : LinkPath m (some a) (a :: l2) none :=
        @linkPath_suffix _ _ (a :: l1) l2 a (by simpa using h1)
      have hdet := linkPath_det h1 h2
      have hlen := congrArg List.length hdet
      simp at hlen
      omega

theorem setNext_same (m : Mem) (a : Nat) (v : Option Nat) :
    setNext m a v a = { m a with next := v } := by
  simp [setNext]

theorem setNext_other (m : Mem) {x a : Nat} (v : Option Nat) (hx : x ≠ a) :
    setNext m a v x = m x := by
  simp [setNext, hx]

theorem setPrev_same (m : Mem) (a : Nat) (v : Option Nat) :
    setPrev m a v a = { m a with prev := v } := by
  simp [setPrev]

theorem setPrev_other (m : Mem) {x a : Nat} (v : Option Nat) (hx : x ≠ a) :
    setPrev m a v x = m x := by
  simp [setPrev, hx]

theorem setSize_same (m : Mem) (a : Nat) (v : Nat) :
    setSize m a v a = { m a with size := v } := by
  simp [setSize]

theorem setSize_other (m : Mem) {x a : Nat} (v : Nat) (hx : x ≠ a) :
    setSize m a v x = m x := by
  simp [setSize, hx]

theorem setAlloc_same (m : Mem) (a : Nat) (v : Bool) :
    setAlloc m a v a = { m a with is_allocated := v } := by
  simp [setAlloc]

theorem setAlloc_other (m : Mem) {x a : Nat} (v : Bool) (hx : x ≠ a) :
    setAlloc m a v x = m x := by
  simp [setAlloc, hx]

theorem insertScan_none (m : Mem) (new : Nat) (prev : Option Nat) (fuel : Nat) :
    insertScan m new prev none fuel = (prev, none) := by
  cases fuel <;> rfl

theorem insertScan_some (m : Mem) (new : Nat) (prev : Option Nat) (c : Nat) (fuel : Nat) :
    insertScan m new prev (some c) (fuel + 1) =
      if c < new then insertScan m new (some c) (m c).next fuel else (prev, some c) := rfl

theorem insertScan_path (m : Mem) (new : Nat) :
    ∀ (l : List Nat) (o : Option Nat) (prev : Option Nat) (fuel : Nat),
      LinkPath m o l none → l.length ≤ fuel →
      insertScan m new prev o fuel =
        (List.foldl (fun _ a => some a) prev (l.takeWhile (fun a => decide (a < new))),
         (l.dropWhile (fun a => decide (a < new))).head?) := by
  intro l
  induction l with
  | nil =>
    intro o prev fuel hp _
    cases hp
    rw [insertScan_none]
    rfl
  | cons a t ih =>
    intro o prev fuel hp hf
    cases hp with
    | cons hp2 =>
      cases fuel with
      | zero => simp at hf
      | succ f =>
        rw [insertScan_some]
        by_cases hlt : a < new
        · rw [if_pos hlt, ih (m a).next (some a) f hp2 (by simpa using hf),
            List.takeWhile_cons_of_pos (by simpa using hlt),
            List.dropWhile_cons_of_pos (by simpa using hlt)]
          rfl
        · rw [if_neg hlt,
            List.takeWhile_cons_of_neg (by simpa using hlt),
            List.dropWhile_cons_of_neg (by simpa using hlt)]
          rfl

theorem setPrev_next (m : Mem) (a : Nat) (v : Option Nat) (x : Nat) :
    ((setPrev m a v) x).next = (m x).next := by
  by_cases hx : x = a <;> simp [setPrev, hx]

theorem setNext_prev (m : Mem) (a : Nat) (v : Option Nat) (x : Nat) :
    ((setNext m a v) x).prev = (m x).prev := by
  by_cases hx : x = a <;> simp [setNext, hx]

theorem setSize_next (m : Mem) (a v x : Nat) : ((setSize m a v) x).next = (m x).next := by
  by_cases hx : x = a <;> simp [setSize, hx]

theorem setSize_prev (m : Mem) (a v x : Nat) : ((setSize m a v) x).prev = (m x).prev := by
  by_cases hx : x = a <;> simp [setSize, hx]

theorem setAlloc_next (m : Mem) (a : Nat) (v : Bool) (x : Nat) :
    ((setAlloc m a v) x).next = (m x).next := by
  by_cases hx : x = a <;> simp [setAlloc, hx]

theorem setAlloc_prev (m : Mem) (a : Nat) (v : Bool) (x : Nat) :
    ((setAlloc m a v) x).prev = (m x).prev := by
  by_cases hx : x = a <;> simp [setAlloc, hx]

theorem setNext_size (m : Mem) (a : Nat) (v : Option Nat) (x : Nat) :
    ((setNext m a v) x).size = (m x).size := by
  by_cases hx : x = a <;> simp [setNext, hx]

theorem setPrev_size (m : Mem) (a : Nat) (v : Option Nat) (x : Nat) :
    ((setPrev m a v) x).size = (m x).size := by
  by_cases hx : x = a <;> simp [setPrev, hx]

theorem setAlloc_size (m : Mem) (a : Nat) (v : Bool) (x : Nat) :
    ((setAlloc m a v) x).size = (m x).size := by
  by_cases hx : x = a <;> simp [setAlloc, hx]

theorem setNext_alloc (m : Mem) (a : Nat) (v : Option Nat) (x : Nat) :
    ((setNext m a v) x).is_allocated = (m x).is_allocated := by
  by_cases hx : x = a <;> simp [setNext, hx]

theorem setPrev_alloc (m : Mem) (a : Nat) (v : Option Nat) (x : Nat) :
    ((setPrev m a v) x).is_allocated = (m x).is_allocated := by
  by_cases hx : x = a <;> simp [setPrev, hx]

theorem setSize_alloc (m : Mem) (a v : Nat) (x : Nat) :
    ((setSize m a v) x).is_allocated = (m x).is_allocated := by
  by_cases hx : x = a <;> simp [setSize, hx]

theorem setNext_next_self (m : Mem) (a : Nat) (v : Option Nat) : ((setNext m a v) a).next = v := by
  simp [setNext]

theorem setNext_next_of_ne (m : Mem) {x a : Nat} (v : Option Nat) (hx : x ≠ a) :
    ((setNext m a v) x).next = (m x).next := by
  simp [setNext, hx]

theorem setPrev_prev_self (m : Mem) (a : Nat) (v : Option Nat) : ((setPrev m a v) a).prev = v := by
  simp [setPrev]

theorem setPrev_prev_of_ne (m : Mem) {x a : Nat} (v : Option Nat) (hx : x ≠ a) :
    ((setPrev m a v) x).prev = (m x).prev := by
  simp [setPrev, hx]

theorem setSize_size_self (m : Mem) (a v : Nat) : ((setSize m a v) a).size = v := by
  simp [setSize]

theorem setSize_size_of_ne (m : Mem) {x a : Nat} (v : Nat) (hx : x ≠ a) :
    ((setSize m a v) x).size = (m x).size := by
  simp [setSize, hx]

theorem setAlloc_alloc_self (m : Mem) (a : Nat) (v : Bool) :
    ((setAlloc m a v) a).is_allocated = v := by
  simp [setAlloc]

theorem setAlloc_alloc_of_ne (m : Mem) {x a : Nat} (v : Bool) (hx : x ≠ a) :
    ((setAlloc m a v) x).is_allocated = (m x).is_allocated := by
  simp [setAlloc, hx]

theorem nullLinks_of_ne (m : Mem) {x new : Nat} (hx : x ≠ new) : (nullLinks m new) x = m x := by
  simp [nullLinks, setPrev, setNext, hx]

theorem nullLinks_next_self (m : Mem) (new : Nat) : ((nullLinks m new) new).next = none := by
  simp [nullLinks, setPrev, setNext]

theorem nullLinks_prev_self (m : Mem) (new : Nat) : ((nullLinks m new) new).prev = none := by
  simp [nullLinks, setPrev, setNext]

theorem nullLinks_next_of_ne (m : Mem) {x new : Nat} (hx : x ≠ new) :
    ((nullLinks m new) x).next = (m x).next := by
  rw [nullLinks_of_ne m hx]

theorem nullLinks_size (m : Mem) (new x : Nat) : ((nullLinks m new) x).size = (m x).size := by
  simp [nullLinks, setPrev_size, setNext_size]

theorem nullLinks_alloc (m : Mem) (new x : Nat) :
    ((nullLinks m new) x).is_allocated = (m x).is_allocated := by
  simp [nullLinks, setPrev_alloc, setNext_alloc]

theorem linkPath_head {m : Mem} {o : Option Nat} {l : List Nat} (h : LinkPath m o l none) :
    o = l.head? := by
  cases h <;> rfl

theorem linkPath_nil_elim {m : Mem} {o o2 : Option Nat} (h : LinkPath m o [] o2) : o2 = o := by
  cases h
  rfl

theorem insert_link_spec (h : Heap) (new fuel : Nat) (l tw rest : List Nat)
    (hch : FreeChain h.mem h.head l) (hfuel : l.length ≤ fuel) (hnew : new ∉ l)
    (htw : tw = l.takeWhile (fun a => decide (a < new)))
    (hrest : rest = l.dropWhile (fun a => decide (a < new))) :
    FreeChain (insert_link h new fuel).mem (insert_link h new fuel).head (tw ++ new :: rest) ∧
    ((insert_link h new fuel).mem new).next = rest.head? ∧
    ((insert_link h new fuel).mem new).prev = List.foldl (fun _ a => some a) none tw ∧
    (∀ x, x ∉ l → x ≠ new → (insert_link h new fuel).mem x = h.mem x) ∧
    (∀ x, ((insert_link h new fuel).mem x).size = (h.mem x).size) ∧
    (∀ x, ((insert_link h new fuel).mem x).is_allocated = (h.mem x).is_allocated) ∧
    (insert_link h new fuel).brk = h.brk := by
  have hl : tw ++ rest = l := by
    rw [htw, hrest]; exact List.takeWhile_append_dropWhile _ _
  rcases hh : h.head with _ | hd
  · have hl0 : l = [] := by
      unfold FreeChain at hch
      rw [hh] at hch
      cases hch
      rfl
    subst hl0
    have htw0 : tw = [] := by simpa using htw
    have hrest0 : rest = [] := by simpa using hrest
    subst htw0; subst hrest0
    have he : insert_link h new fuel =
        { mem := nullLinks h.mem new, head := some new, brk := h.brk } := by
      unfold insert_link; rw [hh]
    rw [he]
    refine ⟨?_, ?_, ?_, ?_, ?_, ?_, rfl⟩
    · show LinkPath (nullLinks h.mem new) (some new) [new] none
      refine .cons ?_
      rw [nullLinks_next_self]
      exact .nil none
    · exact nullLinks_next_self h.mem new
    · exact nullLinks_prev_self h.mem new
    · intro x _ hxnew; exact nullLinks_of_ne h.mem hxnew
    · intro x; exact nullLinks_size h.mem new x
    · intro x; exact nullLinks_alloc h.mem new x
  · have hch0 : LinkPath (nullLinks h.mem new) (some hd) l none := by
      refine linkPath_congr (m := h.mem) ?_ ?_
      · intro a ha
        exact nullLinks_next_of_ne h.mem (fun hne => hnew (hne ▸ ha))
      · unfold FreeChain at hch; rw [hh] at hch; exact hch
    have hnd : l.Nodup := linkPath_nodup hch0
    have hscan := insertScan_path (nullLinks h.mem new) new l (some hd) none fuel hch0 hfuel
    rw [← htw, ← hrest] at hscan
    obtain ⟨o1, hptw, hprest⟩ := @linkPath_split _ tw rest _ _ (by rw [hl]; exact hch0)
    have ho1 : o1 = rest.head? := linkPath_head hprest
    have hnewtw : new ∉ tw := fun hmem => hnew (hl ▸ List.mem_append_left rest hmem)
    have hnewrest : new ∉ rest := fun hmem => hnew (hl ▸ List.mem_append_right tw hmem)
    rcases List.eq_nil_or_concat tw with htwnil | ⟨tw2, p, htwc⟩
    · subst htwnil
      have hrl : rest = l := by simpa using hl
      have hscan2 : insertScan (nullLinks h.mem new) new none (some hd) fuel =
          (none, rest.head?) := hscan
      have he : insert_link h new fuel =
          { mem := setPrev (setNext (nullLinks h.mem new) new (some hd)) hd (some new),
            head := some new, brk := h.brk } := by
        unfold insert_link
        rw [hh]
        dsimp only
        rw [hscan2]
      have hdmem : hd ∈ l := List.mem_of_mem_head? (linkPath_head hch0).symm
      have hdne : hd ≠ new := fun hne => hnew (hne ▸ hdmem)
      have hn1 : ((setPrev (setNext (nullLinks h.mem new) new (some hd)) hd (some new)) new).next =
          some hd := by
        rw [setPrev_next, setNext_next_self]
      rw [he]
      refine ⟨?_, ?_, ?_, ?_, ?_, ?_, rfl⟩
      · show LinkPath _ (some new) (new :: rest) none
        refine .cons ?_
        rw [hn1, hrl]
        refine linkPath_congr ?_ hch0
        intro a ha
        rw [setPrev_next]
        exact setNext_next_of_ne _ _ (fun hne => hnew (hne ▸ ha))
      · rw [hn1, hrl]
        exact linkPath_head hch0
      · rw [setPrev_prev_of_ne _ _ (Ne.symm hdne), setNext_prev, nullLinks_prev_self]
        rfl
      · intro x hxl hxnew
        show setPrev (setNext (nullLinks h.mem new) new (some hd)) hd (some new) x = h.mem x
        rw [setPrev_other _ _ (fun hne => hxl (by rw [hne]; exact hdmem)),
          setNext_other _ _ hxnew, nullLinks_of_ne _ hxnew]
      · intro x
        show ((setPrev (setNext (nullLinks h.mem new) new (some hd)) hd (some new)) x).size = _
        rw [setPrev_size, setNext_size, nullLinks_size]
      · intro x
        show ((setPrev (setNext (nullLinks h.mem new) new (some hd)) hd (some new)) x).is_allocated = _
        rw [setPrev_alloc, setNext_alloc, nullLinks_alloc]
    · have htwc2 : tw = tw2 ++ [p] := by simpa using htwc
      subst htwc2
      have hfold : List.foldl (fun _ a => some a) (none : Option Nat) (tw2 ++ [p]) = some p := by
        rw [List.foldl_append]
        rfl
      rw [hfold] at hscan
      have hpmem : p ∈ l := by
        refine hl ▸ List.mem_append_left rest ?_
        simp
      have hpne : p ≠ new := fun hne => hnew (hne ▸ hpmem)
      have hndTR : ((tw2 ++ [p]) ++ rest).Nodup := by rw [hl]; exact hnd
      have hptw2nodup : (tw2 ++ [p]).Nodup := List.Nodup.of_append_left hndTR
      have hdisjP := List.disjoint_of_nodup_append hptw2nodup
      have htw2p : ∀ a ∈ tw2, a ≠ p := fun a ha hee => hdisjP ha (by simp [hee])
      have hdisjTR := List.disjoint_of_nodup_append hndTR
      have hprestp : p ∉ rest := fun hmem => hdisjTR (List.mem_append_right tw2 (by simp)) hmem
      have hresttw2 : ∀ a ∈ rest, a ∉ tw2 := fun a ha hmem =>
        hdisjTR (List.mem_append_left [p] hmem) ha
      obtain ⟨o2, hptw2, hpp⟩ := @linkPath_split _ tw2 [p] _ _ hptw
      cases hpp with
      | cons hpnil =>
        have ho1p := linkPath_nil_elim hpnil
        subst ho1p
        rcases rest with _ | ⟨c, r2⟩
        · have hscan2 : insertScan (nullLinks h.mem new) new none (some hd) fuel =
              (some p, none) := hscan
          have he : insert_link h new fuel =
              { mem := setPrev (setNext (nullLinks h.mem new) p (some new)) new (some p),
                head := h.head, brk := h.brk } := by
            unfold insert_link
            rw [hh]
            dsimp only
            rw [hscan2]
          have hm1next : ((setPrev (setNext (nullLinks h.mem new) p (some new)) new (some p)) new).next =
              none := by
            rw [setPrev_next, setNext_next_of_ne _ _ (Ne.symm hpne), nullLinks_next_self]
          rw [he, hh]
          refine ⟨?_, ?_, ?_, ?_, ?_, ?_, rfl⟩
          · show LinkPath _ (some hd) ((tw2 ++ [p]) ++ new :: []) none
            have pathA : LinkPath (setPrev (setNext (nullLinks h.mem new) p (some new)) new (some p))
                (some hd) tw2 (some p) := by
              refine linkPath_congr (m := nullLinks h.mem new) ?_ hptw2
              intro a ha
              rw [setPrev_next]
              exact setNext_next_of_ne _ _ (htw2p a ha)
            have pathB : LinkPath (setPrev (setNext (nullLinks h.mem new) p (some new)) new (some p))
                (some p) [p] (some new) := by
              refine .cons ?_
              have hpn : ((setPrev (setNext (nullLinks h.mem new) p (some new)) new (some p)) p).next =
                  some new := by
                rw [setPrev_next, setNext_next_self]
              rw [hpn]
              exact .nil (some new)
            have pathC : LinkPath (setPrev (setNext (nullLinks h.mem new) p (some new)) new (some p))
                (some new) [new] none := by
              refine .cons ?_
              rw [hm1next]
              exact .nil none
            exact linkPath_append (linkPath_append pathA pathB) pathC
          · rw [hm1next]
            rfl
          · rw [setPrev_prev_self, hfold]
          · intro x hxl hxnew
            show setPrev (setNext (nullLinks h.mem new) p (some new)) new (some p) x = h.mem x
            rw [setPrev_other _ _ hxnew,
              setNext_other _ _ (fun hne => hxl (by rw [hne]; exact hpmem)),
              nullLinks_of_ne _ hxnew]
          · intro x
            show ((setPrev (setNext (nullLinks h.mem new) p (some new)) new (some p)) x).size = _
            rw [setPrev_size, setNext_size, nullLinks_size]
          · intro x
            show ((setPrev (setNext (nullLinks h.mem new) p (some new)) new (some p)) x).is_allocated = _
            rw [setPrev_alloc, setNext_alloc, nullLinks_alloc]
        · have hscan2 : insertScan (nullLinks h.mem new) new none (some hd) fuel =
              (some p, some c) := hscan
          have he : insert_link h new fuel =
              { mem := setPrev (setNext (setNext (setPrev (nullLinks h.mem new) new (some p))
                         new (some c)) p (some new)) c (some new),
                head := h.head, brk := h.brk } := by
            unfold insert_link
            rw [hh]
            dsimp only
            rw [hscan2]
          have hcmem : c ∈ l := by
            rw [← hl]
            exact List.mem_append_right _ (by simp)
          have hcnew : c ≠ new := fun hee => hnewrest (by rw [← hee]; simp)
          have hcp : c ≠ p := fun hee => hprestp (by rw [← hee]; simp)
          have hm1next : ((setPrev (setNext (setNext (setPrev (nullLinks h.mem new) new (some p))
              new (some c)) p (some new)) c (some new)) new).next = some c := by
            rw [setPrev_next, setNext_next_of_ne _ _ (Ne.symm hpne), setNext_next_self]
          have hm1prev : ((setPrev (setNext (setNext (setPrev (nullLinks h.mem new) new (some p))
              new (some c)) p (some new)) c (some new)) new).prev = some p := by
            rw [setPrev_prev_of_ne _ _ (Ne.symm hcnew), setNext_prev, setNext_prev,
              setPrev_prev_self]
          rw [he, hh]
          refine ⟨?_, ?_, ?_, ?_, ?_, ?_, rfl⟩
          · show LinkPath _ (some hd) ((tw2 ++ [p]) ++ new :: c :: r2) none
            have pathA : LinkPath (setPrev (setNext (setNext (setPrev (nullLinks h.mem new) new (some p))
                new (some c)) p (some new)) c (some new)) (some hd) tw2 (some p) := by
              refine linkPath_congr (m := nullLinks h.mem new) ?_ hptw2
              intro a ha
              rw [setPrev_next, setNext_next_of_ne _ _ (htw2p a ha),
                setNext_next_of_ne _ _ (fun hee => hnewtw (by rw [← hee]; exact List.mem_append_left _ ha)),
                setPrev_next]
            have pathB : LinkPath (setPrev (setNext (setNext (setPrev (nullLinks h.mem new) new (some p))
                new (some c)) p (some new)) c (some new)) (some p) [p] (some new) := by
              refine .cons ?_
              have hpn : ((setPrev (setNext (setNext (setPrev (nullLinks h.mem new) new (some p))
                  new (some c)) p (some new)) c (some new)) p).next = some new := by
                rw [setPrev_next, setNext_next_self]
              rw [hpn]
              exact .nil (some new)
            have pathC : LinkPath (setPrev (setNext (setNext (setPrev (nullLinks h.mem new) new (some p))
                new (some c)) p (some new)) c (some new)) (some new) [new] (some c) := by
              refine .cons ?_
              rw [hm1next]
              exact .nil (some c)
            have pathD : LinkPath (setPrev (setNext (setNext (setPrev (nullLinks h.mem new) new (some p))
                new (some c)) p (some new)) c (some new)) (some c) (c :: r2) none := by
              rw [ho1] at hprest
              refine linkPath_congr (m := nullLinks h.mem new) ?_ hprest
              intro a ha
              rw [setPrev_next,
                setNext_next_of_ne _ _ (fun hee => hprestp (by rw [← hee]; exact ha)),
                setNext_next_of_ne _ _ (fun hee => hnewrest (by rw [← hee]; exact ha)),
                setPrev_next]
            have hall := linkPath_append (linkPath_append (linkPath_append pathA pathB) pathC) pathD
            rw [List.append_assoc (tw2 ++ [p]) [new] (c :: r2)] at hall
            simpa using hall
          · rw [hm1next]
            rfl
          · rw [hm1prev, hfold]
          · intro x hxl hxnew
            show setPrev (setNext (setNext (setPrev (nullLinks h.mem new) new (some p))
                new (some c)) p (some new)) c (some new) x = h.mem x
            rw [setPrev_other _ _ (fun hee => hxl (by rw [hee]; exact hcmem)),
              setNext_other _ _ (fun hee => hxl (by rw [hee]; exact hpmem)),
              setNext_other _ _ hxnew, setPrev_other _ _ hxnew, nullLinks_of_ne _ hxnew]
          · intro x
            show ((setPrev (setNext (setNext (setPrev (nullLinks h.mem new) new (some p))
                new (some c)) p (some new)) c (some new)) x).size = _
            rw [setPrev_size, setNext_size, setNext_size, setPrev_size, nullLinks_size]
          · intro x
            show ((setPrev (setNext (setNext (setPrev (nullLinks h.mem new) new (some p))
                new (some c)) p (some new)) c (some new)) x).is_allocated = _
            rw [setPrev_alloc, setNext_alloc, setNext_alloc, setPrev_alloc, nullLinks_alloc]

theorem coalesce_fwd_noop (h : Heap) (block : Nat)
    (hfwd : ∀ nb, (h.mem block).next = some nb → block + FBLOCKSIZE + (h.mem block).size ≠ nb) :
    coalesce_fwd h block = h := by
  unfold coalesce_fwd
  rcases hn : (h.mem block).next with _ | nb
  · rfl
  · show (if block + FBLOCKSIZE + (h.mem block).size = nb then _ else h) = h
    rw [if_neg (hfwd nb hn)]

theorem coalesce_bwd_noop (nbo : Option Nat) (h : Heap) (block : Nat)
    (hbwd : ∀ pb, (h.mem block).prev = some pb → pb + FBLOCKSIZE + (h.mem pb).size ≠ block) :
    coalesce_bwd nbo (h.mem block).prev h block = (h, block) := by
  unfold coalesce_bwd
  rcases hp : (h.mem block).prev with _ | pb
  · rfl
  · show (if pb + FBLOCKSIZE + (h.mem pb).size = block then _ else (h, block)) = (h, block)
    rw [if_neg (hbwd pb hp)]

theorem coalesce_noop (h : Heap) (block : Nat)
    (hfwd : ∀ nb, (h.mem block).next = some nb → block + FBLOCKSIZE + (h.mem block).size ≠ nb)
    (hbwd : ∀ pb, (h.mem block).prev = some pb → pb + FBLOCKSIZE + (h.mem pb).size ≠ block) :
    coalesce h block = (h, block) := by
  unfold coalesce
  rw [coalesce_fwd_noop h block hfwd]
  exact coalesce_bwd_noop (h.mem block).next h block hbwd

theorem foldl_some_mem : ∀ (tw : List Nat) (i : Option Nat) (pb : Nat),
    List.foldl (fun _ a => some a) i tw = some pb → pb ∈ tw ∨ i = some pb := by
  intro tw
  induction tw with
  | nil => intro i pb hf; exact Or.inr hf
  | cons a t ih =>
    intro i pb hf
    rcases ih (some a) pb hf with hmem | heq
    · exact Or.inl (List.mem_cons_of_mem a hmem)
    · simp at heq
      subst heq
      exact Or.inl (List.mem_cons_self a t)

theorem insert_to_list_spec (h : Heap) (new fuel : Nat) (l tw rest : List Nat)
    (hch : FreeChain h.mem h.head l) (hfuel : l.length ≤ fuel) (hnew : new ∉ l)
    (htw : tw = l.takeWhile (fun a => decide (a < new)))
    (hrest : rest = l.dropWhile (fun a => decide (a < new)))
    (hadjF : ∀ a ∈ l, new + FBLOCKSIZE + (h.mem new).size ≠ a)
    (hadjB : ∀ a ∈ l, a + FBLOCKSIZE + (h.mem a).size ≠ new) :
    FreeChain (insert_to_list h new fuel).mem (insert_to_list h new fuel).head
      (tw ++ new :: rest) ∧
    ((insert_to_list h new fuel).mem new).size = (h.mem new).size ∧
    ((insert_to_list h new fuel).mem new).is_allocated = false ∧
    (∀ x, x ∉ l → x ≠ new → (insert_to_list h new fuel).mem x = h.mem x) ∧
    (∀ x, ((insert_to_list h new fuel).mem x).size = (h.mem x).size) ∧
    (insert_to_list h new fuel).brk = h.brk := by
  have hl : tw ++ rest = l := by
    rw [htw, hrest]; exact List.takeWhile_append_dropWhile _ _
  obtain ⟨hc1, hc2, hc3, hc4, hc5, hc6, hc7⟩ :=
    insert_link_spec h new fuel l tw rest hch hfuel hnew htw hrest
  have hnoop : coalesce (insert_link h new fuel) new = (insert_link h new fuel, new) := by
    refine coalesce_noop _ _ ?_ ?_
    · intro nb hnb
      rw [hc2] at hnb
      have hnbl : nb ∈ l := by
        rw [← hl]
        exact List.mem_append_right tw (List.mem_of_mem_head? hnb)
      rw [hc5 new]
      exact hadjF nb hnbl
    · intro pb hpb
      rw [hc3] at hpb
      rcases foldl_some_mem tw none pb hpb with hmem | hcon
      · have hpbl : pb ∈ l := by
          rw [← hl]
          exact List.mem_append_left rest hmem
        rw [hc5 pb]
        exact hadjB pb hpbl
      · exact absurd hcon (by simp)
  have heq : insert_to_list h new fuel =
      { mem := setAlloc (insert_link h new fuel).mem new false,
        head := (insert_link h new fuel).head, brk := (insert_link h new fuel).brk } := by
    unfold insert_to_list mark_free
    rw [hnoop]
  rw [heq]
  refine ⟨?_, ?_, ?_, ?_, ?_, ?_⟩
  · show LinkPath (setAlloc (insert_link h new fuel).mem new false)
      (insert_link h new fuel).head (tw ++ new :: rest) none
    refine linkPath_congr (m := (insert_link h new fuel).mem) ?_ hc1
    intro a _
    exact setAlloc_next _ _ _ _
  · show ((setAlloc (insert_link h new fuel).mem new false) new).size = _
    rw [setAlloc_size]
    exact hc5 new
  · exact setAlloc_alloc_self _ _ _
  · intro x hxl hxnew
    show setAlloc (insert_link h new fuel).mem new false x = h.mem x
    rw [setAlloc_other _ _ hxnew]
    exact hc4 x hxl hxnew
  · intro x
    show ((setAlloc (insert_link h new fuel).mem new false) x).size = _
    rw [setAlloc_size]
    exact hc5 x
  · exact hc7

/-- C7 (amended): for every block `b` and aligned requested size `s` with
`s + FBLOCKSIZE ≤ b.size` (the amendment: the claim quantified over all
`s ≤ b.size`, but for `s ≤ b.size < s + FBLOCKSIZE` the C leftover
computation wraps, see the counterexample), with the free list `l` not
containing `b` or the carve address and not physically adjacent to the
carved block: `split_block` keeps the block whole and the state unmodified
when the leftover `b.size - s - FBLOCKSIZE` is below `MIN_SPLIT_REMAINDER`;
otherwise it returns `b` with its size shrunk to exactly `s`, and a new free
block of exactly the leftover size, carved immediately after `b`'s payload
at `b + s + FBLOCKSIZE`, is marked free and linked into the free list at its
address-sorted position. -/
theorem C7_split_spec_amended (h : Heap) (b s fuel : Nat) (l tw rest : List Nat)
    (hch : FreeChain h.mem h.head l) (hfuel : l.length ≤ fuel)
    (hszlt : (h.mem b).size < U64) (hs : s + FBLOCKSIZE ≤ (h.mem b).size)
    (hal : s % ALIGNMENT = 0)
    (hbl : b ∉ l) (hnl : b + (s + FBLOCKSIZE) ∉ l)
    (htw : tw = l.takeWhile (fun a => decide (a < b + (s + FBLOCKSIZE))))
    (hrest : rest = l.dropWhile (fun a => decide (a < b + (s + FBLOCKSIZE))))
    (hadjF : ∀ a ∈ l, (b + (s + FBLOCKSIZE)) + FBLOCKSIZE + ((h.mem b).size - s - FBLOCKSIZE) ≠ a)
    (hadjB : ∀ a ∈ l, a + FBLOCKSIZE + (h.mem a).size ≠ b + (s + FBLOCKSIZE)) :
    ((h.mem b).size - s - FBLOCKSIZE < MIN_SPLIT_REMAINDER → split_block h b s fuel = (h, b)) ∧
    (MIN_SPLIT_REMAINDER ≤ (h.mem b).size - s - FBLOCKSIZE →
      (split_block h b s fuel).2 = b ∧
      ((split_block h b s fuel).1.mem b).size = s ∧
      ((split_block h b s fuel).1.mem (b + (s + FBLOCKSIZE))).size =
        (h.mem b).size - s - FBLOCKSIZE ∧
      ((split_block h b s fuel).1.mem (b + (s + FBLOCKSIZE))).is_allocated = false ∧
      FreeChain (split_block h b s fuel).1.mem (split_block h b s fuel).1.head
        (tw ++ (b + (s + FBLOCKSIZE)) :: rest)) := by
  have hf32 : FBLOCKSIZE = 32 := rfl
  have hu64 : U64 = 2 ^ 64 := rfl
  have hsub : sub64 (sub64 (h.mem b).size s) FBLOCKSIZE = (h.mem b).size - s - FBLOCKSIZE := by
    rw [sub64_eq _ _ (le_trans (Nat.le_add_right s FBLOCKSIZE) hs) hszlt]
    rw [sub64_eq _ _ (by omega) (by omega)]
  constructor
  · intro hlt
    unfold split_block
    rw [hsub, if_pos hlt]
  · intro hge
    have hnecond : ¬ sub64 (sub64 (h.mem b).size s) FBLOCKSIZE < MIN_SPLIT_REMAINDER := by
      rw [hsub]
      omega
    have hbne : b ≠ b + (s + FBLOCKSIZE) := by omega
    have hsplit : split_block h b s fuel =
        (insert_to_list
           { mem := setPrev (setNext
                      (setSize (setSize h.mem b s) (b + (s + FBLOCKSIZE))
                        (sub64 (sub64 (h.mem b).size s) FBLOCKSIZE))
                      (b + (s + FBLOCKSIZE)) none)
                    (b + (s + FBLOCKSIZE)) none,
             head := h.head, brk := h.brk }
           (b + (s + FBLOCKSIZE)) fuel,
         b) := by
      unfold split_block
      rw [if_neg hnecond]
    have hcarvedmem : ∀ a, a ≠ b + (s + FBLOCKSIZE) → a ≠ b →
        (setPrev (setNext
          (setSize (setSize h.mem b s) (b + (s + FBLOCKSIZE))
            (sub64 (sub64 (h.mem b).size s) FBLOCKSIZE))
          (b + (s + FBLOCKSIZE)) none)
          (b + (s + FBLOCKSIZE)) none) a = h.mem a := by
      intro a hane habne
      rw [setPrev_other _ _ hane, setNext_other _ _ hane, setSize_other _ _ hane,
        setSize_other _ _ habne]
    have hcarvedsize : ((setPrev (setNext
        (setSize (setSize h.mem b s) (b + (s + FBLOCKSIZE))
          (sub64 (sub64 (h.mem b).size s) FBLOCKSIZE))
        (b + (s + FBLOCKSIZE)) none)
        (b + (s + FBLOCKSIZE)) none) (b + (s + FBLOCKSIZE))).size =
        (h.mem b).size - s - FBLOCKSIZE := by
      rw [setPrev_size, setNext_size, setSize_size_self]
      exact hsub
    have hcarvedbsize : ((setPrev (setNext
        (setSize (setSize h.mem b s) (b + (s + FBLOCKSIZE))
          (sub64 (sub64 (h.mem b).size s) FBLOCKSIZE))
        (b + (s + FBLOCKSIZE)) none)
        (b + (s + FBLOCKSIZE)) none) b).size = s := by
      rw [setPrev_size, setNext_size, setSize_size_of_ne _ _ hbne, setSize_size_self]
    have hch2 : FreeChain (setPrev (setNext
        (setSize (setSize h.mem b s) (b + (s + FBLOCKSIZE))
          (sub64 (sub64 (h.mem b).size s) FBLOCKSIZE))
        (b + (s + FBLOCKSIZE)) none)
        (b + (s + FBLOCKSIZE)) none) h.head l := by
      refine linkPath_congr (m := h.mem) ?_ hch
      intro a ha
      have hane : a ≠ b + (s + FBLOCKSIZE) := fun hee => hnl (hee ▸ ha)
      have habne : a ≠ b := fun hee => hbl (hee ▸ ha)
      rw [hcarvedmem a hane habne]
    obtain ⟨hq1, hq2, hq3, hq4, hq5, hq6⟩ :=
      insert_to_list_spec
        { mem := setPrev (setNext
            (setSize (setSize h.mem b s) (b + (s + FBLOCKSIZE))
              (sub64 (sub64 (h.mem b).size s) FBLOCKSIZE))
            (b + (s + FBLOCKSIZE)) none)
            (b + (s + FBLOCKSIZE)) none,
          head := h.head, brk := h.brk }
        (b + (s + FBLOCKSIZE)) fuel l tw rest hch2 hfuel hnl htw hrest
        (by
          intro a ha
          show b + (s + FBLOCKSIZE) + FBLOCKSIZE +
            ((setPrev (setNext
              (setSize (setSize h.mem b s) (b + (s + FBLOCKSIZE))
                (sub64 (sub64 (h.mem b).size s) FBLOCKSIZE))
              (b + (s + FBLOCKSIZE)) none)
              (b + (s + FBLOCKSIZE)) none) (b + (s + FBLOCKSIZE))).size ≠ a
          rw [hcarvedsize]
          exact hadjF a ha)
        (by
          intro a ha
          have hane : a ≠ b + (s + FBLOCKSIZE) := fun hee => hnl (hee ▸ ha)
          have habne : a ≠ b := fun hee => hbl (hee ▸ ha)
          show a + FBLOCKSIZE +
            ((setPrev (setNext
              (setSize (setSize h.mem b s) (b + (s + FBLOCKSIZE))
                (sub64 (sub64 (h.mem b).size s) FBLOCKSIZE))
              (b + (s + FBLOCKSIZE)) none)
              (b + (s + FBLOCKSIZE)) none) a).size ≠ b + (s + FBLOCKSIZE)
          rw [hcarvedmem a hane habne]
          exact hadjB a ha)
    rw [hsplit]
    refine ⟨rfl, ?_, ?_, ?_, ?_⟩
    · show ((insert_to_list _ (b + (s + FBLOCKSIZE)) fuel).mem b).size = s
      rw [hq4 b hbl hbne]
      exact hcarvedbsize
    · rw [hq2]
      exact hcarvedsize
    · exact hq3
    · exact hq1


/-- C7 witness instance: applying `C7_split_spec_amended` to `stW7`
(block 0 of size 104, free list `[1000]`, request 32, leftover 40). -/
theorem C7_split_spec_amended_witness :
    MIN_SPLIT_REMAINDER ≤ (stW7.mem 0).size - 32 - FBLOCKSIZE ∧
    ((split_block stW7 0 32 5).2 = 0 ∧
     ((split_block stW7 0 32 5).1.mem 0).size = 32 ∧
     ((split_block stW7 0 32 5).1.mem (0 + (32 + FBLOCKSIZE))).size =
       (stW7.mem 0).size - 32 - FBLOCKSIZE ∧
     ((split_block stW7 0 32 5).1.mem (0 + (32 + FBLOCKSIZE))).is_allocated = false ∧
     FreeChain (split_block stW7 0 32 5).1.mem (split_block stW7 0 32 5).1.head
       ([] ++ (0 + (32 + FBLOCKSIZE)) :: [1000])) :=
  ⟨by decide,
   (C7_split_spec_amended stW7 0 32 5 [1000] [] [1000]
      (LinkPath.cons (LinkPath.nil none)) (by decide) (by decide) (by decide) (by decide)
      (by decide) (by decide) (by decide) (by decide) (by decide) (by decide)).2 (by decide)⟩
